import Mathlib

/-!
Verification development for the provider-metadata registry and the grid
tree-node merge utility of this repository.

The embedding covers:
* `extract_conn_fields` from `scripts/tools/generate_yaml_format_for_hooks.py`
  (present in the source tree), embedded over association lists that model
  Python `dict`s (insertion order preserved, key update in place);
* the grid merge routine `_merge_node_dicts` and the `ProvidersManager`
  registry, whose implementation files are not part of the source tree here;
  those are modelled from the specification and the repository's unit tests,
  as marked on each definition.
-/

namespace Spec2Proof

/-! ## Association-list model of Python dicts

A Python `dict` preserves insertion order, updates a present key in place,
and appends an absent key at the end.  We model such dicts as association
lists with these exact operations. -/

/-- Lookup of a key, first (and by invariant only) occurrence. -/
def alGet {α : Type} (k : String) : List (String × α) → Option α
  | [] => none
  | p :: rest => if p.1 == k then some p.2 else alGet k rest

/-- Python `d[k] = v`: update in place if `k` is present, else append. -/
def alSet {α : Type} (k : String) (v : α) : List (String × α) → List (String × α)
  | [] => [(k, v)]
  | p :: rest => if p.1 == k then (k, v) :: rest else p :: alSet k v rest

/-- Python `d.pop(k, ...)`'s removal part: drop the first binding of `k`. -/
def alErase {α : Type} (k : String) : List (String × α) → List (String × α)
  | [] => []
  | p :: rest => if p.1 == k then rest else p :: alErase k rest

/-! ## Grid tree-node merge

Modelled from the spec: the implementation file
`airflow/api_fastapi/core_api/services/ui/grid.py` (function
`_merge_node_dicts`) is not part of the source tree; the model below is
reconstructed from spec section 4.6 together with the unit tests in
`tests/unit/api_fastapi/core_api/services/ui/test_grid.py`.  Where the two
disagree on the matched-node children rule (the tests exercise leaf/group
conversion explicitly, e.g. `test_merge_task_to_taskgroup_conversion` and
`test_merge_current_empty_new_has_children`), the unit tests are followed:
when the incoming node carries a children list (possibly empty) the current
node's children field is coerced to a list (created empty when it was `None`)
and the incoming children are merged into it; when the incoming node's
children field is `None` the current node is left untouched. -/

/-- A grid node dict: `{"id": ..., "label": ..., "children": ...}`, where
`children` is either `None` (a task leaf) or a list of nodes (a group). -/
inductive Node : Type where
  | mk (id : String) (label : String) (children : Option (List Node)) : Node

def Node.id : Node → String
  | .mk i _ _ => i

def Node.label : Node → String
  | .mk _ l _ => l

def Node.children : Node → Option (List Node)
  | .mk _ _ c => c

mutual

/-- The loop body of `_merge_node_dicts` over the incoming list.
`origKeys` is the key view of the `current_ids` dict built once from the
original `current` list: a matched incoming node updates (the last
occurrence of) the node with its id in place, an unmatched one is appended. -/
def mergeLoop (origKeys : List String) (cur : List Node) (l : List Node) : List Node :=
  match l with
  | [] => cur
  | nn :: rest =>
      if nn.id ∈ origKeys then mergeLoop origKeys (updateLast cur nn) rest
      else mergeLoop origKeys (cur ++ [nn]) rest
termination_by (sizeOf l, sizeOf cur)

/-- Update, in place, the last node of `cur` whose id equals `nn.id`
(a Python dict comprehension keeps the last occurrence of a duplicate key). -/
def updateLast (cur : List Node) (nn : Node) : List Node :=
  match cur with
  | [] => []
  | c :: cs =>
      if cs.any (fun m => m.id == nn.id) then c :: updateLast cs nn
      else if c.id == nn.id then mergeMatched c nn :: cs
      else c :: updateLast cs nn
termination_by (sizeOf nn, sizeOf cur)

/-- Matched-node rule: if the incoming node's children field is `None`,
nothing happens; otherwise the current node's children is coerced to a list
(`[]` when it was `None`) and the incoming children are merged into it. -/
def mergeMatched (cn nn : Node) : Node :=
  match nn with
  | .mk _ _ none => cn
  | .mk _ _ (some nch) =>
      match cn with
      | .mk ci cl cc =>
          let cch := cc.getD []
          Node.mk ci cl (some (mergeLoop (cch.map Node.id) cch nch))
termination_by (sizeOf nn, sizeOf cn)

end

/-- Top level of `_merge_node_dicts(current, new)`: no-op when `new` is `None`. -/
def mergeNodeDicts (current : List Node) (incoming : Option (List Node)) : List Node :=
  match incoming with
  | none => current
  | some newList => mergeLoop (current.map Node.id) current newList

/-- The matched-node rule applied to `c` using the (unique) incoming node
with the same id, if any. -/
def updateByIncoming (inc : List Node) (c : Node) : Node :=
  match inc.find? (fun n => n.id == c.id) with
  | some n => mergeMatched c n
  | none => c

/-! ## `extract_conn_fields` (scripts/tools/generate_yaml_format_for_hooks.py)

This function is present in the source tree and is embedded directly.  A
widget's `param.dump()` result is modelled by the `Widget` record: its
`schema` dict, its optional `value` and `description`, plus the widget's
optional `field_class.__name__` and whether it has a `param` attribute. -/

/-- A generic JSON-ish schema value, enough for the schemas the script moves
around (strings, integers, booleans, string enumerations). -/
inductive JVal : Type where
  | s (v : String)
  | i (v : Int)
  | b (v : Bool)
  | arr (v : List String)
deriving DecidableEq

/-- One form-field widget as `extract_conn_fields` observes it. -/
structure Widget where
  hasParam : Bool
  schema : List (String × JVal)
  value : Option JVal
  description : Option String
  fieldClassName : Option String
deriving DecidableEq

/-- Char-list version of Python's `str.startswith` used by `chContains`. -/
def chPfx : List Char → List Char → Bool
  | [], _ => true
  | _ :: _, [] => false
  | a :: as, b :: bs => a == b && chPfx as bs

/-- Python's `pat in s` contiguous-substring test, over char lists. -/
def chContains (pat : List Char) : List Char → Bool
  | [] => pat.isEmpty
  | c :: cs => chPfx pat (c :: cs) || chContains pat cs

/-- Test `field_class_name and "Password" in field_class_name.__name__`. -/
def hasPasswordMarker (w : Widget) : Bool :=
  match w.fieldClassName with
  | some n => chContains "Password".toList n.toList
  | none => false

/-- Python `str.title()`: uppercase an alphabetic character that follows a
non-alphabetic one, lowercase the other alphabetic characters. -/
def pyTitleAux : Bool → List Char → List Char
  | _, [] => []
  | prev, c :: cs =>
      (if c.isAlpha then (if prev then c.toLower else c.toUpper) else c)
        :: pyTitleAux c.isAlpha cs

def pyTitle (s : String) : String := String.mk (pyTitleAux false s.toList)

/-- The marker `f"extra__{connection_type}__"`. -/
def extraMarker (connectionType : String) : String :=
  "extra__" ++ connectionType ++ "__"

/-- Compute `field_key[len(prefix):] if field_key.startswith(prefix) else
field_key` (character-based, as Python string slicing is). -/
def fieldNameFor (connectionType fieldKey : String) : String :=
  let pfx := extraMarker connectionType
  if chPfx pfx.toList fieldKey.toList then
    String.mk (fieldKey.toList.drop pfx.toList.length)
  else fieldKey

/-- The `{"label": ..., "schema": ..., ("description": ...)}` value emitted
per field; `label` is the popped `title` value (or the title-cased field
name). -/
structure YamlField where
  label : JVal
  schema : List (String × JVal)
  description : Option String
deriving DecidableEq

/-- The loop body of `extract_conn_fields` for one widget that has a `param`
attribute: pop `title` into the label, force `format = "password"` for
password widgets, copy a non-`None` `value` into `default`, and attach a
truthy description. -/
def mkYamlField (connectionType fieldKey : String) (w : Widget) : YamlField :=
  let fieldName := fieldNameFor connectionType fieldKey
  let label := (alGet "title" w.schema).getD
    (JVal.s (pyTitle (fieldName.replace "_" " ")))
  let schema1 := alErase "title" w.schema
  let schema2 :=
    if hasPasswordMarker w = true ∧ alGet "format" schema1 ≠ some (JVal.s "password")
    then alSet "format" (JVal.s "password") schema1 else schema1
  let schema3 :=
    match w.value with
    | some v => alSet "default" v schema2
    | none => schema2
  { label := label
    schema := schema3
    description :=
      match w.description with
      | some d => if d = "" then none else some d
      | none => none }

/-- The loop body of `extract_conn_fields` for one `(field_key, widget)`
pair: a widget without a `param` attribute is skipped, any other widget is
written into the result dict under its prefix-stripped field name. -/
def extractStep (connectionType : String) (acc : List (String × YamlField))
    (kw : String × Widget) : List (String × YamlField) :=
  if kw.2.hasParam then
    alSet (fieldNameFor connectionType kw.1) (mkYamlField connectionType kw.1 kw.2) acc
  else acc

/-- The function `extract_conn_fields(widgets, connection_type)`. -/
def extractConnFields (widgets : List (String × Widget)) (connectionType : String) :
    List (String × YamlField) :=
  widgets.foldl (extractStep connectionType) []

/-! ## ProvidersManager registry

Modelled from the spec: the implementation file `airflow/providers_manager.py`
is not part of the source tree here (only its unit tests are); the registry
state, its discovery passes, its `check`-flagged auth-manager/executor passes,
the field normalizer `_to_api_format`, the behaviour merger
`_add_customized_fields`, the reset `_cleanup` and the singleton construction
are modelled from spec sections 3, 4.3-4.5 and 9, consistent with the unit
tests in `tests/unit/always/test_providers_manager.py`.  Symbol resolution
and correctness checking are represented by trace events; the checked passes
are modelled on the happy path where every declared symbol resolves and
passes its check. -/

/-- Record `DialectInfo(name, dialect_class_name, provider_name)`. -/
structure DialectInfo : Type where
  name : String
  dialect_class_name : String
  provider_name : String
deriving DecidableEq

/-- Record `PluginInfo(name, plugin_class, provider_name)`; equality is structural. -/
structure PluginInfo : Type where
  name : String
  plugin_class : String
  provider_name : String
deriving DecidableEq

/-- Modelled from the spec: one provider's manifest document, restricted to
the sections the claims exercise.  `dialects` holds
`(dialect-type, dialect-class-name)` pairs, `plugins` holds
`(name, plugin-class)` pairs, `authManagers`/`executors` hold declared
class-path strings. -/
structure ProviderInfo : Type where
  version : String
  dialects : List (String × String)
  plugins : List (String × String)
  authManagers : List String
  executors : List String
deriving DecidableEq

/-- The manifest mapping: package name → manifest document, in insertion
order, package names unique. -/
abbrev Manifest : Type := List (String × ProviderInfo)

/-- Observable resolution/validation events of the discovery passes. -/
inductive PMEvent : Type where
  | symbolLoad (path : String)
  | correctness (path : String)
  | discoverAuth (check : Bool)
  | discoverExec (check : Bool)
deriving DecidableEq

/-- Modelled from the spec: the dialect-registration portion of the hook
discovery pass (`_discover_hooks`): each provider's `dialects` entries are
written into the keyed dialect index, last-write-wins on key collision. -/
def discoverDialects (manifest : Manifest) : List (String × DialectInfo) :=
  manifest.foldl
    (fun idx p =>
      p.2.dialects.foldl (fun idx d => alSet d.1 ⟨d.1, d.2, p.1⟩ idx) idx) []

/-- Modelled from the spec: plugin discovery (`_discover_plugins`): a set of
`PluginInfo`, duplicate registrations collapsing to one entry. -/
def discoverPlugins (manifest : Manifest) : List PluginInfo :=
  (manifest.foldl
    (fun acc p => acc ++ p.2.plugins.map (fun pl => ⟨pl.1, pl.2, p.1⟩)) []).dedup

/-- Modelled from the spec: the providers listing, alphabetically sorted by
package name regardless of manifest insertion order. -/
def discoverProviders (manifest : Manifest) : List (String × ProviderInfo) :=
  manifest.mergeSort (fun a b => a.1 ≤ b.1)

/-- Modelled from the spec: the auth-manager discovery pass
(`_discover_auth_managers`) with its `check` flag; with `check=True` every
declared name is resolved (a `symbolLoad` event) and validated (a
`correctness` event); with `check=False` the raw declared identifiers are
returned and no resolution or validation happens at all. -/
def discoverAuthManagersPass (check : Bool) (manifest : Manifest) :
    List String × List PMEvent :=
  let names := manifest.foldl (fun acc p => acc ++ p.2.authManagers) []
  if check then
    (names, names.foldl
      (fun evs nm => evs ++ [PMEvent.symbolLoad nm, PMEvent.correctness nm]) [])
  else (names, [])

/-- Modelled from the spec: the executor discovery pass
(`_discover_executors`) with its `check` flag, same shape as the
auth-manager pass. -/
def discoverExecutorsPass (check : Bool) (manifest : Manifest) :
    List String × List PMEvent :=
  let names := manifest.foldl (fun acc p => acc ++ p.2.executors) []
  if check then
    (names, names.foldl
      (fun evs nm => evs ++ [PMEvent.symbolLoad nm, PMEvent.correctness nm]) [])
  else (names, [])

/-- Record `{hidden_fields, relabeling, placeholders}`: the normalized
per-connection-type field-behaviour record. -/
structure FieldBehaviour : Type where
  hidden_fields : List String
  relabeling : List (String × String)
  placeholders : List (String × String)
deriving DecidableEq

/-- A declarative field-behaviour value: a list of field keys or a mapping
of field key to display/placeholder text. -/
inductive BVal : Type where
  | strs (l : List String)
  | map (m : List (String × String))
deriving DecidableEq

/-- Modelled from the spec: the registry singleton's internal state — the
manifest mapping, the mutable `resource_version` field, one lazily-populated
cache per derived index, and the field-behaviour index. -/
structure PMState : Type where
  manifest : Manifest
  resource_version : String
  providerCache : Option (List (String × ProviderInfo))
  dialectCache : Option (List (String × DialectInfo))
  pluginCache : Option (List PluginInfo)
  authManagerCache : Option (List String)
  authManagerWithoutCheckCache : Option (List String)
  executorCache : Option (List String)
  executorWithoutCheckCache : Option (List String)
  fieldBehaviours : List (String × FieldBehaviour)
deriving DecidableEq

/-- The freshly-constructed registry state over a manifest mapping: every
derived index empty and unpopulated. -/
def initState (manifest : Manifest) : PMState :=
  { manifest := manifest
    resource_version := "0"
    providerCache := none
    dialectCache := none
    pluginCache := none
    authManagerCache := none
    authManagerWithoutCheckCache := none
    executorCache := none
    executorWithoutCheckCache := none
    fieldBehaviours := [] }

/-- Modelled from the spec: `_cleanup` / `reset()`: every derived index and
cache is cleared; the manifest mapping registered on the state is kept. -/
def cleanup (s : PMState) : PMState :=
  { s with
      providerCache := none
      dialectCache := none
      pluginCache := none
      authManagerCache := none
      authManagerWithoutCheckCache := none
      executorCache := none
      executorWithoutCheckCache := none
      fieldBehaviours := [] }

/-- The registry accessors covered by the model. -/
inductive Accessor : Type where
  | providers
  | dialects
  | plugins
  | authManagers
  | authManagersNoCheck
  | executors
  | executorsNoCheck
deriving DecidableEq

/-- The value an accessor returns. -/
inductive AccessorValue : Type where
  | provs (v : List (String × ProviderInfo))
  | dials (v : List (String × DialectInfo))
  | plugs (v : List PluginInfo)
  | names (v : List String)
deriving DecidableEq

/-- Modelled from the spec: each accessor lazily triggers exactly the
discovery pass needed for its index on first access and memoizes the result
on the registry state. -/
def runAccessor : Accessor → PMState → AccessorValue × PMState
  | .providers, s =>
      match s.providerCache with
      | some v => (.provs v, s)
      | none =>
          let v := discoverProviders s.manifest
          (.provs v, { s with providerCache := some v })
  | .dialects, s =>
      match s.dialectCache with
      | some v => (.dials v, s)
      | none =>
          let v := discoverDialects s.manifest
          (.dials v, { s with dialectCache := some v })
  | .plugins, s =>
      match s.pluginCache with
      | some v => (.plugs v, s)
      | none =>
          let v := discoverPlugins s.manifest
          (.plugs v, { s with pluginCache := some v })
  | .authManagers, s =>
      match s.authManagerCache with
      | some v => (.names v, s)
      | none =>
          let v := (discoverAuthManagersPass true s.manifest).1
          (.names v, { s with authManagerCache := some v })
  | .authManagersNoCheck, s =>
      match s.authManagerWithoutCheckCache with
      | some v => (.names v, s)
      | none =>
          let v := (discoverAuthManagersPass false s.manifest).1
          (.names v, { s with authManagerWithoutCheckCache := some v })
  | .executors, s =>
      match s.executorCache with
      | some v => (.names v, s)
      | none =>
          let v := (discoverExecutorsPass true s.manifest).1
          (.names v, { s with executorCache := some v })
  | .executorsNoCheck, s =>
      match s.executorWithoutCheckCache with
      | some v => (.names v, s)
      | none =>
          let v := (discoverExecutorsPass false s.manifest).1
          (.names v, { s with executorWithoutCheckCache := some v })

/-- Modelled from the spec: the `auth_manager_without_check` property:
populate the without-check set through the discovery pass invoked with
`check=False`, then return that set; the returned trace records the
discovery invocation and every resolution/validation event it caused. -/
def authManagerWithoutCheck (s : PMState) :
    List String × PMState × List PMEvent :=
  match s.authManagerWithoutCheckCache with
  | some v => (v, s, [])
  | none =>
      let r := discoverAuthManagersPass false s.manifest
      (r.1, { s with authManagerWithoutCheckCache := some r.1 },
        PMEvent.discoverAuth false :: r.2)

/-- Modelled from the spec: the `executor_without_check` property, same
shape as `authManagerWithoutCheck`. -/
def executorWithoutCheck (s : PMState) :
    List String × PMState × List PMEvent :=
  match s.executorWithoutCheckCache with
  | some v => (v, s, [])
  | none =>
      let r := discoverExecutorsPass false s.manifest
      (r.1, { s with executorWithoutCheckCache := some r.1 },
        PMEvent.discoverExec false :: r.2)

/-- One declarative field definition as `_to_api_format` consumes it: label,
description, sensitivity flag and the flattened schema keys. -/
structure FieldDef : Type where
  label : Option String
  description : Option String
  sensitive : Bool
  ftype : Option String
  enum : Option (List String)
  minimum : Option Int
  maximum : Option Int
  format : Option String
  default : Option JVal
deriving DecidableEq

/-- The normalized API schema: always carries a title, keeps the declared
constraint keys. -/
structure ApiSchema : Type where
  title : String
  ftype : Option String
  enum : Option (List String)
  minimum : Option Int
  maximum : Option Int
  format : Option String
deriving DecidableEq

/-- The normalized API field: the schema, the declared default copied into
`value`, and the description. -/
structure ApiField : Type where
  schema : ApiSchema
  value : Option JVal
  description : Option String
deriving DecidableEq

/-- Modelled from the spec: `_to_api_format` / `normalizeField`: a pure,
total transform; the title defaults to the declared label and otherwise is
derived from the field key by replacing separators with spaces and title
casing; the declared default is copied into `value`; `enum`, `minimum`,
`maximum` pass through unchanged; a sensitive field is forced to
`format = "password"`. -/
def toApiFormat (fieldName : String) (fd : FieldDef) : ApiField :=
  { schema :=
      { title := fd.label.getD (pyTitle (fieldName.replace "_" " "))
        ftype := fd.ftype
        enum := fd.enum
        minimum := fd.minimum
        maximum := fd.maximum
        format := if fd.sensitive then some "password" else fd.format }
    value := fd.default
    description := fd.description }

/-- Modelled from the spec: `_add_customized_fields` / `mergeFieldBehaviour`:
normalize the hyphenated declarative keys (`hidden-fields` → `hidden_fields`,
etc.) and merge into the per-connection-type record, creating it on first
contribution and keeping the categories the declaration omits. -/
def addCustomizedFields (_packageName connectionType : String)
    (behaviour : List (String × BVal)) (s : PMState) : PMState :=
  let existing := (alGet connectionType s.fieldBehaviours).getD ⟨[], [], []⟩
  let hf :=
    match alGet "hidden-fields" behaviour with
    | some (BVal.strs l) => l
    | _ => existing.hidden_fields
  let rl :=
    match alGet "relabeling" behaviour with
    | some (BVal.map m) => m
    | _ => existing.relabeling
  let ph :=
    match alGet "placeholders" behaviour with
    | some (BVal.map m) => m
    | _ => existing.placeholders
  { s with fieldBehaviours :=
      alSet connectionType ⟨hf, rl, ph⟩ s.fieldBehaviours }

/-- Python `dict.popitem()`: remove and return the last inserted item. -/
def popItem {α : Type} (l : List (String × α)) :
    Option ((String × α) × List (String × α)) :=
  match l.getLast? with
  | some p => some (p, l.dropLast)
  | none => none

/-- Update the heap cell at an index, leaving other cells alone. -/
def listModify {α : Type} (f : α → α) : Nat → List α → List α
  | _, [] => []
  | 0, a :: rest => f a :: rest
  | n + 1, a :: rest => a :: listModify f n rest

/-- Modelled from the spec: the process world holding the heap of registry
objects and the class-level singleton slot. -/
structure World : Type where
  heap : List PMState
  instIdx : Option Nat
deriving DecidableEq

def emptyWorld : World := { heap := [], instIdx := none }

/-- Modelled from the spec: `ProvidersManager()` construction: if the
singleton slot is filled, return the existing handle untouched; otherwise
allocate one fresh state over the manifest mapping and record its handle in
the slot. -/
def constructPM (m : Manifest) (w : World) : Nat × World :=
  match w.instIdx with
  | some h => (h, w)
  | none =>
      (w.heap.length,
        { heap := w.heap ++ [initState m], instIdx := some w.heap.length })

/-- Write `resource_version` through a handle. -/
def writeRV (w : World) (h : Nat) (v : String) : World :=
  { w with heap := listModify (fun st => { st with resource_version := v }) h w.heap }

/-- Read `resource_version` through a handle. -/
def readRV (w : World) (h : Nat) : Option String :=
  (w.heap.get? h).map (fun st => st.resource_version)

/-- Run `_cleanup` on the object a handle points to. -/
def cleanupAt (w : World) (h : Nat) : World :=
  { w with heap := listModify cleanup h w.heap }

theorem alGet_alSet_same {α : Type} (k : String) (v : α) (l : List (String × α)) :
    alGet k (alSet k v l) = some v := by
  induction l with
  | nil => simp [alGet, alSet]
  | cons p rest ih =>
      by_cases h : p.1 = k
      · simp [alGet, alSet, h]
      · simp [alGet, alSet, h, ih]

theorem alGet_alSet_other {α : Type} (k k' : String) (v : α) (l : List (String × α))
    (hne : k ≠ k') : alGet k (alSet k' v l) = alGet k l := by
  induction l with
  | nil => simp [alGet, alSet, Ne.symm hne]
  | cons p rest ih =>
      by_cases h : p.1 = k'
      · have h2 : ¬ p.1 = k := by simpa [h] using Ne.symm hne
        simp [alGet, alSet, h, h2, Ne.symm hne]
      · by_cases h2 : p.1 = k
        · simp [alGet, alSet, h, h2, hne]
        · simp [alGet, alSet, h, h2, ih]

theorem alGet_alErase_other {α : Type} (k k' : String) (l : List (String × α))
    (hne : k ≠ k') : alGet k (alErase k' l) = alGet k l := by
  induction l with
  | nil => simp [alErase]
  | cons p rest ih =>
      by_cases h : p.1 = k'
      · have h2 : ¬ p.1 = k := by simpa [h] using Ne.symm hne
        simp [alGet, alErase, h, h2, Ne.symm hne]
      · by_cases h2 : p.1 = k
        · simp [alGet, alErase, h, h2, hne]
        · simp [alGet, alErase, h, h2, ih]

theorem mergeMatched_id (c n : Node) : (mergeMatched c n).id = c.id := by
  cases n with
  | mk ni nl nc =>
      cases nc with
      | none => simp [mergeMatched]
      | some l => cases c with | mk ci cl cc => simp [mergeMatched, Node.id]

theorem mergeMatched_label (c n : Node) : (mergeMatched c n).label = c.label := by
  cases n with
  | mk ni nl nc =>
      cases nc with
      | none => simp [mergeMatched]
      | some l => cases c with | mk ci cl cc => simp [mergeMatched, Node.label]

theorem mergeMatched_eq_of_some (c n : Node) (cc nc : List Node)
    (hc : c.children = some cc) (hn : n.children = some nc) :
    mergeMatched c n = Node.mk c.id c.label (some (mergeNodeDicts cc (some nc))) := by
  cases n with
  | mk ni nl nch =>
      cases c with
      | mk ci cl cch =>
          simp only [Node.children] at hc hn
          subst hc; subst hn
          simp [mergeMatched, mergeNodeDicts, Node.id, Node.label]

theorem updateByIncoming_id (inc : List Node) (c : Node) :
    (updateByIncoming inc c).id = c.id := by
  unfold updateByIncoming
  cases h : inc.find? (fun n => n.id == c.id) with
  | none => rfl
  | some n => simp [mergeMatched_id]

theorem updateLast_map_id (cur : List Node) (nn : Node) :
    (updateLast cur nn).map Node.id = cur.map Node.id := by
  induction cur with
  | nil => simp [updateLast]
  | cons c cs ih =>
      by_cases h : cs.any (fun m => m.id == nn.id) = true
      · simp [updateLast, h, ih]
      · by_cases h2 : c.id = nn.id
        · simp [updateLast, h, h2, mergeMatched_id]
        · simp [updateLast, h, h2, ih]

theorem updateLast_eq_map (cur : List Node) (nn : Node)
    (h1 : (cur.map Node.id).Nodup) :
    updateLast cur nn
      = cur.map (fun c => if c.id = nn.id then mergeMatched c nn else c) := by
  induction cur with
  | nil => simp [updateLast]
  | cons c cs ih =>
      have h1' : (cs.map Node.id).Nodup := (List.nodup_cons.mp h1).2
      have hne : c.id ∉ cs.map Node.id := (List.nodup_cons.mp h1).1
      by_cases h : cs.any (fun m => m.id == nn.id) = true
      · have hcne : ¬ c.id = nn.id := by
          rcases List.any_eq_true.mp h with ⟨m, hm, hmid⟩
          have hmeq : m.id = nn.id := by simpa using hmid
          intro hceq
          exact hne (by rw [hceq, ← hmeq]; exact List.mem_map_of_mem Node.id hm)
        simp [updateLast, h, hcne, ih h1']
      · have hnone : ∀ m ∈ cs, ¬ m.id = nn.id := by
          intro m hm
          have hall := List.any_eq_false.mp (Bool.eq_false_iff.mpr h) m hm
          simpa using hall
        by_cases h2 : c.id = nn.id
        · have hcs : cs.map (fun c => if c.id = nn.id then mergeMatched c nn else c) = cs := by
            calc cs.map (fun c => if c.id = nn.id then mergeMatched c nn else c)
                = cs.map id := List.map_congr_left (fun m hm => by simp [hnone m hm])
              _ = cs := List.map_id cs
          simp [updateLast, h, h2, hcs]
        · simp [updateLast, h, h2, ih h1']

theorem find?_id_eq_of_nodup (inc : List Node) (n : Node)
    (h2 : (inc.map Node.id).Nodup) (hn : n ∈ inc) :
    inc.find? (fun m => m.id == n.id) = some n := by
  induction inc with
  | nil => cases hn
  | cons a rest ih =>
      rcases List.mem_cons.mp hn with rfl | htail
      · simp [List.find?_cons_of_pos]
      · have ha : ¬ (a.id == n.id) = true := by
          intro he
          exact (List.nodup_cons.mp h2).1
            ((by simpa using he : a.id = n.id) ▸ List.mem_map_of_mem Node.id htail)
        rw [List.find?_cons_of_neg (p := fun m => m.id == n.id) rest ha]
        exact ih (List.nodup_cons.mp h2).2 htail

theorem mergeLoop_eq (ck : List String) (inc : List Node) :
    ∀ cur : List Node,
      (cur.map Node.id).Nodup →
      (inc.map Node.id).Nodup →
      (∀ c ∈ cur, c.id ∉ ck → c.id ∉ inc.map Node.id) →
      mergeLoop ck cur inc =
        cur.map (updateByIncoming inc)
          ++ inc.filter (fun n => !(decide (n.id ∈ ck))) := by
  induction inc with
  | nil =>
      intro cur h1 h2 h3
      have hmap : cur.map (updateByIncoming []) = cur := by
        have hcg := List.map_congr_left (l := cur) (f := updateByIncoming []) (g := id)
          (fun c _ => by simp [updateByIncoming])
        simpa using hcg
      simp [mergeLoop, hmap]
  | cons nn rest ih =>
      intro cur h1 h2 h3
      have h2' : (rest.map Node.id).Nodup := (List.nodup_cons.mp (by simpa using h2)).2
      have hhead : nn.id ∉ rest.map Node.id := (List.nodup_cons.mp (by simpa using h2)).1
      by_cases hk : nn.id ∈ ck
      · have hstep : mergeLoop ck cur (nn :: rest)
            = mergeLoop ck (updateLast cur nn) rest := by
          simp [mergeLoop, hk]
        rw [hstep]
        rw [ih (updateLast cur nn)
              (by rw [updateLast_map_id]; exact h1) h2'
              (by
                intro c hc hck
                have hcid : c.id ∈ cur.map Node.id := by
                  have := List.mem_map_of_mem Node.id hc
                  rwa [updateLast_map_id] at this
                rcases List.mem_map.mp hcid with ⟨c0, hc0, hc0id⟩
                intro hmem
                exact h3 c0 hc0 (hc0id ▸ hck) (by simp [hc0id, hmem]))]
        have hfilter : (nn :: rest).filter (fun n => !(decide (n.id ∈ ck)))
            = rest.filter (fun n => !(decide (n.id ∈ ck))) :=
          List.filter_cons_of_neg (by simp [hk])
        rw [hfilter, updateLast_eq_map cur nn h1, List.map_map]
        congr 1
        apply List.map_congr_left
        intro c hc
        by_cases hcn : c.id = nn.id
        · have hfind : rest.find? (fun m => m.id == (mergeMatched c nn).id) = none := by
            apply List.find?_eq_none.mpr
            intro m hm
            simp only [mergeMatched_id, hcn]
            intro heq
            exact hhead ((by simpa using heq : m.id = nn.id) ▸ List.mem_map_of_mem Node.id hm)
          have hfind2 : (nn :: rest).find? (fun n => n.id == c.id) = some nn :=
            List.find?_cons_of_pos _ (by simp [hcn])
          simp [updateByIncoming, hcn, hfind, hfind2]
        · have hne : ¬ (nn.id == c.id) = true := by simp; exact fun h => hcn h.symm
          have hfind2 : (nn :: rest).find? (fun n => n.id == c.id)
              = rest.find? (fun n => n.id == c.id) :=
            List.find?_cons_of_neg (p := fun n => n.id == c.id) rest hne
          simp [updateByIncoming, hcn, hfind2]
      · have hnotin : nn.id ∉ cur.map Node.id := by
          intro hmem
          rcases List.mem_map.mp hmem with ⟨c, hc, hcid⟩
          by_cases hcck : c.id ∈ ck
          · exact hk (hcid ▸ hcck)
          · exact h3 c hc hcck (by simp [hcid])
        have hstep : mergeLoop ck cur (nn :: rest)
            = mergeLoop ck (cur ++ [nn]) rest := by
          simp [mergeLoop, hk]
        rw [hstep]
        rw [ih (cur ++ [nn])
              (by
                rw [List.map_append]
                refine List.Nodup.append h1 (List.nodup_singleton _) ?_
                intro a ha hb
                have hab : a = nn.id := by simpa using hb
                exact hnotin (hab ▸ ha)) h2'
              (by
                intro c hc hck
                rcases List.mem_append.mp hc with hcur | hsing
                · intro hmem
                  exact h3 c hcur hck (by simp [hmem])
                · have : c = nn := by simpa using hsing
                  subst this
                  exact hhead)]
        have huBInn : updateByIncoming rest nn = nn := by
          have hfind : rest.find? (fun m => m.id == nn.id) = none := by
            apply List.find?_eq_none.mpr
            intro m hm heq
            exact hhead ((by simpa using heq : m.id = nn.id) ▸ List.mem_map_of_mem Node.id hm)
          simp [updateByIncoming, hfind]
        have hmapeq : cur.map (updateByIncoming rest)
            = cur.map (updateByIncoming (nn :: rest)) := by
          apply List.map_congr_left
          intro c hc
          have hcn : ¬ (nn.id == c.id) = true := by
            simp
            intro heq
            exact hnotin (heq ▸ List.mem_map_of_mem Node.id hc)
          have hfind2 : (nn :: rest).find? (fun n => n.id == c.id)
              = rest.find? (fun n => n.id == c.id) :=
            List.find?_cons_of_neg (p := fun n => n.id == c.id) rest hcn
          simp [updateByIncoming, hfind2]
        have hfilter : (nn :: rest).filter (fun n => !(decide (n.id ∈ ck)))
            = nn :: rest.filter (fun n => !(decide (n.id ∈ ck))) :=
          List.filter_cons_of_pos (by simp [hk])
        rw [hfilter, List.map_append, hmapeq]
        simp [huBInn]

/-- Full decomposition of `_merge_node_dicts` on duplicate-free id lists:
matched nodes of `current` are rewritten in place by the matched-node rule,
and the incoming-only nodes are appended in their original order. -/
theorem mergeNodeDicts_some_eq (cur inc : List Node)
    (h1 : (cur.map Node.id).Nodup) (h2 : (inc.map Node.id).Nodup) :
    mergeNodeDicts cur (some inc) =
      cur.map (updateByIncoming inc)
        ++ inc.filter (fun n => !(decide (n.id ∈ cur.map Node.id))) := by
  have h3 : ∀ c ∈ cur, c.id ∉ cur.map Node.id → c.id ∉ inc.map Node.id := by
    intro c hc hmem
    exact absurd (List.mem_map_of_mem Node.id hc) hmem
  simpa [mergeNodeDicts] using mergeLoop_eq (cur.map Node.id) inc cur h1 h2 h3

theorem mergeNodeDicts_ids (cur inc : List Node)
    (h1 : (cur.map Node.id).Nodup) (h2 : (inc.map Node.id).Nodup) :
    ∀ i, i ∈ (mergeNodeDicts cur (some inc)).map Node.id
      ↔ (i ∈ cur.map Node.id ∨ i ∈ inc.map Node.id) := by
  intro i
  rw [mergeNodeDicts_some_eq cur inc h1 h2, List.map_append, List.map_map]
  have hfst : cur.map (Node.id ∘ updateByIncoming inc) = cur.map Node.id :=
    List.map_congr_left (fun c _ => updateByIncoming_id inc c)
  rw [hfst]
  constructor
  · intro h
    rcases List.mem_append.mp h with h | h
    · exact Or.inl h
    · rcases List.mem_map.mp h with ⟨n, hn, hni⟩
      exact Or.inr (hni ▸ List.mem_map_of_mem Node.id (List.mem_of_mem_filter hn))
  · intro h
    rcases h with h | h
    · exact List.mem_append.mpr (Or.inl h)
    · by_cases hc : i ∈ cur.map Node.id
      · exact List.mem_append.mpr (Or.inl hc)
      · rcases List.mem_map.mp h with ⟨n, hn, hni⟩
        refine List.mem_append.mpr (Or.inr ?_)
        refine List.mem_map.mpr ⟨n, ?_, hni⟩
        exact List.mem_filter.mpr ⟨hn, by simp [hni ▸ hc]⟩

theorem mergeLoop_nil_keys (l : List Node) :
    ∀ cur : List Node, mergeLoop [] cur l = cur ++ l := by
  induction l with
  | nil => intro cur; simp [mergeLoop]
  | cons nn rest ih =>
      intro cur
      have hstep : mergeLoop [] cur (nn :: rest) = mergeLoop [] (cur ++ [nn]) rest := by
        simp [mergeLoop]
      rw [hstep, ih]
      simp

theorem mergeMatched_none (c n : Node) (hn : n.children = none) :
    mergeMatched c n = c := by
  cases n with
  | mk ni nl nch =>
      simp only [Node.children] at hn
      subst hn
      simp [mergeMatched]

theorem mergeNodeDicts_single_matched (c n : Node) (hid : n.id = c.id) :
    mergeNodeDicts [c] (some [n]) = [mergeMatched c n] := by
  simp [mergeNodeDicts, mergeLoop, updateLast, hid]

/-- C1 (counterexample): on the spec's own example
`mergeNodes([{id:"a", children:null}], [{id:"a", children:[{id:"a.1"}]}])`
node `a` is NOT left unchanged: the incoming children are copied onto it,
exactly as the unit test `test_merge_task_to_taskgroup_conversion`
requires. -/
theorem claim_C1_counterexample :
    mergeNodeDicts [Node.mk "a" "Task A" none]
        (some [Node.mk "a" "Task A" (some [Node.mk "a.1" "Subtask 1" none])])
      ≠ [Node.mk "a" "Task A" none] := by
  simp [mergeNodeDicts, mergeLoop, updateLast, mergeMatched, Node.id]

/-- C1 (amended): for a node matched by identifier, if the incoming side's
children field is absent (`None`) then current's version of the node is kept
unchanged (in particular a group is never coerced back into a leaf); but if
the incoming side carries a children list while current's side has children
absent or empty, the incoming children are copied onto current's node (other
fields taken from current): a leaf IS coerced into a group. -/
theorem claim_C1 (c n : Node) (hid : n.id = c.id) :
    (n.children = none → mergeNodeDicts [c] (some [n]) = [c])
    ∧ (∀ nc : List Node, (c.children = none ∨ c.children = some []) →
        n.children = some nc →
        mergeNodeDicts [c] (some [n]) = [Node.mk c.id c.label (some nc)]) := by
  constructor
  · intro hn
    rw [mergeNodeDicts_single_matched c n hid, mergeMatched_none c n hn]
  · intro nc hc hn
    rw [mergeNodeDicts_single_matched c n hid]
    cases n with
    | mk ni nl nch =>
        simp only [Node.children] at hn
        subst hn
        cases c with
        | mk ci cl cch =>
            have hcch : cch.getD [] = [] := by
              rcases hc with h | h <;> simp only [Node.children] at h <;> simp [h]
            simp [mergeMatched, hcch, mergeLoop_nil_keys, Node.id, Node.label]

/-- Witness for C1 (amended), at the input of
`test_merge_task_to_taskgroup_conversion`: the incoming children list is
copied onto the matched leaf node. -/
theorem claim_C1_witness :
    mergeNodeDicts [Node.mk "task_a" "Task A" none]
        (some [Node.mk "task_a" "Task A"
          (some [Node.mk "task_a.subtask1" "Subtask 1" none,
                 Node.mk "task_a.subtask2" "Subtask 2" none])])
      = [Node.mk "task_a" "Task A"
          (some [Node.mk "task_a.subtask1" "Subtask 1" none,
                 Node.mk "task_a.subtask2" "Subtask 2" none])] := by
  exact (claim_C1 (Node.mk "task_a" "Task A" none)
      (Node.mk "task_a" "Task A"
        (some [Node.mk "task_a.subtask1" "Subtask 1" none,
               Node.mk "task_a.subtask2" "Subtask 2" none])) rfl).2
    [Node.mk "task_a.subtask1" "Subtask 1" none,
     Node.mk "task_a.subtask2" "Subtask 2" none] (Or.inl rfl) rfl

/-- C5: on duplicate-free id lists, the merge (i) rewrites each matched node
of `current` in place by the matched-node rule and appends the incoming-only
nodes in their original relative order; (ii) for a matched pair where both
sides declare a (non-empty) children list, the in-place update keeps the
node's other fields and replaces its children by the recursive merge of the
two children lists by the same rule; and (iii) the merged list carries
exactly the union of the two lists' node identifiers. -/
theorem claim_C5 (cur inc : List Node)
    (h1 : (cur.map Node.id).Nodup) (h2 : (inc.map Node.id).Nodup) :
    mergeNodeDicts cur (some inc) =
        cur.map (updateByIncoming inc)
          ++ inc.filter (fun n => !(decide (n.id ∈ cur.map Node.id)))
    ∧ (∀ c ∈ cur, ∀ n ∈ inc, n.id = c.id →
        ∀ cc nc : List Node, c.children = some cc → n.children = some nc →
          cc ≠ [] → nc ≠ [] →
          updateByIncoming inc c
            = Node.mk c.id c.label (some (mergeNodeDicts cc (some nc))))
    ∧ (∀ i, i ∈ (mergeNodeDicts cur (some inc)).map Node.id
        ↔ (i ∈ cur.map Node.id ∨ i ∈ inc.map Node.id)) := by
  refine ⟨mergeNodeDicts_some_eq cur inc h1 h2, ?_, mergeNodeDicts_ids cur inc h1 h2⟩
  intro c hc n hn hid cc nc hcc hnc _ _
  have hfind : inc.find? (fun m => m.id == c.id) = some n := by
    have hf := find?_id_eq_of_nodup inc n h2 hn
    simpa [hid] using hf
  simp [updateByIncoming, hfind, mergeMatched_eq_of_some c n cc nc hcc hnc]

/-- Witness for C5, at the inputs of `test_merge_nested_children` combined
with an incoming-only node: the nested children merge and the append both
happen. -/
theorem claim_C5_witness :
    mergeNodeDicts
        [Node.mk "group1" "Group 1" (some [Node.mk "group1.task1" "Task 1" none])]
        (some [Node.mk "group1" "Group 1"
                (some [Node.mk "group1.task1" "Task 1" none,
                       Node.mk "group1.task2" "Task 2" none]),
               Node.mk "task3" "Task 3" none])
      = [Node.mk "group1" "Group 1"
          (some [Node.mk "group1.task1" "Task 1" none,
                 Node.mk "group1.task2" "Task 2" none]),
         Node.mk "task3" "Task 3" none] := by
  have h := (claim_C5
      [Node.mk "group1" "Group 1" (some [Node.mk "group1.task1" "Task 1" none])]
      [Node.mk "group1" "Group 1"
        (some [Node.mk "group1.task1" "Task 1" none,
               Node.mk "group1.task2" "Task 2" none]),
       Node.mk "task3" "Task 3" none]
      (by simp [Node.id]) (by simp [Node.id])).1
  rw [h]
  simp [updateByIncoming, mergeMatched, mergeLoop, updateLast, Node.id, Node.label]

theorem extract_fold_frozen (ct nm : String) :
    ∀ (ws : List (String × Widget)) (acc : List (String × YamlField)),
      (∀ kw ∈ ws, kw.2.hasParam = true → fieldNameFor ct kw.1 ≠ nm) →
      alGet nm (ws.foldl (extractStep ct) acc) = alGet nm acc := by
  intro ws
  induction ws with
  | nil => intro acc _; rfl
  | cons kw rest ih =>
      intro acc h
      simp only [List.foldl_cons]
      rw [ih _ (fun x hx hxp => h x (List.mem_cons_of_mem _ hx) hxp)]
      by_cases hp : kw.2.hasParam = true
      · simp only [extractStep, hp, if_true]
        exact alGet_alSet_other nm _ _ acc (Ne.symm (h kw (List.mem_cons_self _ _) hp))
      · simp [extractStep, hp]

theorem extract_fold_mem (ct : String) :
    ∀ (ws : List (String × Widget)) (acc : List (String × YamlField)),
      ((ws.filter (fun kw => kw.2.hasParam)).map
          (fun kw => fieldNameFor ct kw.1)).Nodup →
      ∀ k w, (k, w) ∈ ws → w.hasParam = true →
        alGet (fieldNameFor ct k) (ws.foldl (extractStep ct) acc)
          = some (mkYamlField ct k w) := by
  intro ws
  induction ws with
  | nil =>
      intro acc _ k w hmem
      cases hmem
  | cons kw rest ih =>
      intro acc hnd k w hmem hp
      rcases List.mem_cons.mp hmem with heq | htail
      · subst heq
        simp only [List.foldl_cons, extractStep, hp, if_true]
        have hnamem : fieldNameFor ct k
            ∉ (rest.filter (fun kw => kw.2.hasParam)).map
                (fun kw => fieldNameFor ct kw.1) := by
          rw [List.filter_cons_of_pos (by simpa using hp), List.map_cons] at hnd
          exact (List.nodup_cons.mp hnd).1
        have hfr : ∀ x ∈ rest, x.2.hasParam = true →
            fieldNameFor ct x.1 ≠ fieldNameFor ct k := by
          intro x hx hxp heq2
          exact hnamem (heq2 ▸ List.mem_map_of_mem _
            (List.mem_filter.mpr ⟨hx, by simpa using hxp⟩))
        rw [extract_fold_frozen ct (fieldNameFor ct k) rest _ hfr]
        exact alGet_alSet_same _ _ acc
      · have hnd' : ((rest.filter (fun kw => kw.2.hasParam)).map
            (fun kw => fieldNameFor ct kw.1)).Nodup := by
          by_cases hkwp : kw.2.hasParam = true
          · rw [List.filter_cons_of_pos (by simpa using hkwp), List.map_cons] at hnd
            exact (List.nodup_cons.mp hnd).2
          · rwa [List.filter_cons_of_neg (by simpa using hkwp)] at hnd
        simp only [List.foldl_cons]
        exact ih _ hnd' k w htail hp

theorem extract_fold_filter (ct : String) :
    ∀ (ws : List (String × Widget)) (acc : List (String × YamlField)),
      ws.foldl (extractStep ct) acc
        = (ws.filter (fun kw => kw.2.hasParam)).foldl (extractStep ct) acc := by
  intro ws
  induction ws with
  | nil => intro acc; rfl
  | cons kw rest ih =>
      intro acc
      by_cases hp : kw.2.hasParam = true
      · rw [List.filter_cons_of_pos (by simpa using hp)]
        simp only [List.foldl_cons]
        exact ih _
      · rw [List.filter_cons_of_neg (by simpa using hp)]
        simp only [List.foldl_cons]
        rw [show extractStep ct acc kw = acc from by simp [extractStep, hp]]
        exact ih _

/-- C10: for every widget mapping and connection type, a widget whose key
starts with `extra__<connection_type>__` is emitted under the key with that
marker removed, a key without the marker is emitted unchanged, and a widget
without a `param` attribute is skipped entirely and contributes no field
(the result equals the extraction over the param-bearing widgets alone).
Stripped field names are assumed pairwise distinct, as they are for a real
widget dict of one hook. -/
theorem claim_C10 (ct : String) (widgets : List (String × Widget))
    (hkeys : ((widgets.filter (fun kw => kw.2.hasParam)).map
        (fun kw => fieldNameFor ct kw.1)).Nodup) :
    (∀ k w, (k, w) ∈ widgets → w.hasParam = true →
        alGet (fieldNameFor ct k) (extractConnFields widgets ct)
          = some (mkYamlField ct k w))
    ∧ (∀ k : String, chPfx (extraMarker ct).toList k.toList = true →
        fieldNameFor ct k = String.mk (k.toList.drop (extraMarker ct).toList.length))
    ∧ (∀ k : String, chPfx (extraMarker ct).toList k.toList = false →
        fieldNameFor ct k = k)
    ∧ extractConnFields widgets ct
        = extractConnFields (widgets.filter (fun kw => kw.2.hasParam)) ct := by
  refine ⟨?_, ?_, ?_, ?_⟩
  · intro k w hm hp
    exact extract_fold_mem ct widgets [] hkeys k w hm hp
  · intro k h
    have h2 : chPfx (extraMarker ct).data k.data = true := by
      simpa [String.toList] using h
    simp [fieldNameFor, String.toList, h2]
  · intro k h
    have h2 : chPfx (extraMarker ct).data k.data = false := by
      simpa [String.toList] using h
    simp [fieldNameFor, String.toList, h2]
  · exact extract_fold_filter ct widgets []

/-- Witness for C10 at a concrete widget mapping with one prefixed
param-widget, one unprefixed param-widget and one widget without `param`. -/
theorem claim_C10_witness :
    (alGet (fieldNameFor "http" "extra__http__auth_token")
        (extractConnFields
          [("extra__http__auth_token",
              Widget.mk true [("type", JVal.s "string")] none none none),
           ("timeout", Widget.mk true [("type", JVal.s "integer")] none none none),
           ("ignored", Widget.mk false [] none none none)] "http")
      = some (mkYamlField "http" "extra__http__auth_token"
          (Widget.mk true [("type", JVal.s "string")] none none none)))
    ∧ fieldNameFor "http" "extra__http__auth_token" = "auth_token"
    ∧ fieldNameFor "http" "timeout" = "timeout" := by
  refine ⟨?_, by decide, by decide⟩
  exact (claim_C10 "http"
      [("extra__http__auth_token",
          Widget.mk true [("type", JVal.s "string")] none none none),
       ("timeout", Widget.mk true [("type", JVal.s "integer")] none none none),
       ("ignored", Widget.mk false [] none none none)] (by decide)).1
    "extra__http__auth_token" (Widget.mk true [("type", JVal.s "string")] none none none)
    (by decide) rfl

/-- C6: a field marked sensitive, or one whose resolved widget class name
contains the `Password` marker, whose declared schema omits the `format`
key, is normalized with `format = "password"`: the widget path through
`extract_conn_fields`'s per-field builder and the sensitive path through
`_to_api_format`. -/
theorem claim_C6 :
    (∀ (ct k : String) (w : Widget),
        hasPasswordMarker w = true →
        alGet "format" w.schema = none →
        alGet "format" (mkYamlField ct k w).schema = some (JVal.s "password"))
    ∧ (∀ (name : String) (fd : FieldDef),
        fd.sensitive = true → fd.format = none →
        (toApiFormat name fd).schema.format = some "password") := by
  constructor
  · intro ct k w hpw hfmt
    have h1 : alGet "format" (alErase "title" w.schema) = none := by
      rw [alGet_alErase_other _ _ _ (by decide)]
      exact hfmt
    have hcond : hasPasswordMarker w = true
        ∧ alGet "format" (alErase "title" w.schema) ≠ some (JVal.s "password") := by
      exact ⟨hpw, by simp [h1]⟩
    simp only [mkYamlField]
    rw [if_pos hcond]
    cases hv : w.value with
    | none =>
        simp only [hv]
        exact alGet_alSet_same _ _ _
    | some v =>
        simp only [hv]
        rw [alGet_alSet_other _ _ _ _ (by decide)]
        exact alGet_alSet_same _ _ _
  · intro name fd hs hf
    simp [toApiFormat, hs]

/-- Witness for C6: a concrete password widget without a declared format,
and a concrete sensitive field definition without a declared format. -/
theorem claim_C6_witness :
    alGet "format" (mkYamlField "http" "api_key"
        (Widget.mk true [("type", JVal.s "string")] none none
          (some "BS3PasswordFieldWidget"))).schema
      = some (JVal.s "password")
    ∧ (toApiFormat "api_key"
        { label := some "API Key", description := none, sensitive := true,
          ftype := some "string", enum := none, minimum := none,
          maximum := none, format := none, default := none }).schema.format
      = some "password" := by
  exact ⟨claim_C6.1 "http" "api_key"
      (Widget.mk true [("type", JVal.s "string")] none none
        (some "BS3PasswordFieldWidget")) (by decide) (by decide),
    claim_C6.2 "api_key"
      { label := some "API Key", description := none, sensitive := true,
        ftype := some "string", enum := none, minimum := none,
        maximum := none, format := none, default := none } rfl rfl⟩

/-- C7: `_to_api_format` on an integer field definition with
`minimum = 1`, `maximum = 300`, `default = 30` and a declared label yields
`value = 30`, `title` equal to the label, and the constraint keys `enum`,
`minimum`, `maximum` passed through unchanged; the transform is a total
pure function of its arguments. -/
theorem claim_C7 (name lbl : String) (desc : Option String) :
    (toApiFormat name
      { label := some lbl, description := desc, sensitive := false,
        ftype := some "integer", enum := none, minimum := some 1,
        maximum := some 300, format := none,
        default := some (JVal.i 30) }).value = some (JVal.i 30)
    ∧ (toApiFormat name
      { label := some lbl, description := desc, sensitive := false,
        ftype := some "integer", enum := none, minimum := some 1,
        maximum := some 300, format := none,
        default := some (JVal.i 30) }).schema.title = lbl
    ∧ (toApiFormat name
      { label := some lbl, description := desc, sensitive := false,
        ftype := some "integer", enum := none, minimum := some 1,
        maximum := some 300, format := none,
        default := some (JVal.i 30) }).schema.enum = none
    ∧ (toApiFormat name
      { label := some lbl, description := desc, sensitive := false,
        ftype := some "integer", enum := none, minimum := some 1,
        maximum := some 300, format := none,
        default := some (JVal.i 30) }).schema.minimum = some 1
    ∧ (toApiFormat name
      { label := some lbl, description := desc, sensitive := false,
        ftype := some "integer", enum := none, minimum := some 1,
        maximum := some 300, format := none,
        default := some (JVal.i 30) }).schema.maximum = some 300 := by
  exact ⟨rfl, rfl, rfl, rfl, rfl⟩

/-- C8: merging a field-behaviour declaration with hyphenated keys
`hidden-fields = ["schema","extra"]`, `relabeling = {"login": "Email
Address"}` (plus placeholders) creates the connection type's normalized
record: `hidden_fields = ["schema","extra"]` and
`relabeling["login"] = "Email Address"`, whatever the prior registry
state. -/
theorem claim_C8 (pkg ct : String) (s : PMState) :
    (alGet ct (addCustomizedFields pkg ct
        [("hidden-fields", BVal.strs ["schema", "extra"]),
         ("relabeling", BVal.map [("login", "Email Address")]),
         ("placeholders", BVal.map [("host", "smtp.gmail.com"), ("port", "587")])]
        s).fieldBehaviours).map FieldBehaviour.hidden_fields
      = some ["schema", "extra"]
    ∧ (alGet ct (addCustomizedFields pkg ct
        [("hidden-fields", BVal.strs ["schema", "extra"]),
         ("relabeling", BVal.map [("login", "Email Address")]),
         ("placeholders", BVal.map [("host", "smtp.gmail.com"), ("port", "587")])]
        s).fieldBehaviours).map (fun fb => alGet "login" fb.relabeling)
      = some (some "Email Address") := by
  constructor <;>
    simp [addCustomizedFields, alGet_alSet_same, alGet]

/-- C9: registering exactly one provider whose manifest declares exactly one
dialect entry yields a dialect index of size 1 keyed by the declared
dialect-type key, and `popitem` on it returns the pair of that key with a
`DialectInfo` built from the declared key, the declared class name and the
owning package name, leaving the index empty. -/
theorem claim_C9 (pname ver dtype dclass : String) :
    discoverDialects [(pname, ⟨ver, [(dtype, dclass)], [], [], []⟩)]
        = [(dtype, ⟨dtype, dclass, pname⟩)]
    ∧ (discoverDialects [(pname, ⟨ver, [(dtype, dclass)], [], [], []⟩)]).length = 1
    ∧ popItem (discoverDialects [(pname, ⟨ver, [(dtype, dclass)], [], [], []⟩)])
        = some ((dtype, ⟨dtype, dclass, pname⟩), []) := by
  refine ⟨rfl, rfl, ?_⟩
  simp [discoverDialects, alSet, popItem]

/-- C2: on a fresh registry the without-check accessors invoke their
discovery pass exactly once with `check = false`, that call causes no
symbol resolution and no correctness check, and each accessor's result
equals the without-check set held by the resulting registry state. -/
theorem claim_C2 (m : Manifest) :
    ((authManagerWithoutCheck (initState m)).2.2 = [PMEvent.discoverAuth false]
      ∧ (∀ p, PMEvent.symbolLoad p ∉ (authManagerWithoutCheck (initState m)).2.2)
      ∧ (∀ p, PMEvent.correctness p ∉ (authManagerWithoutCheck (initState m)).2.2)
      ∧ some (authManagerWithoutCheck (initState m)).1
          = (authManagerWithoutCheck (initState m)).2.1.authManagerWithoutCheckCache)
    ∧ ((executorWithoutCheck (initState m)).2.2 = [PMEvent.discoverExec false]
      ∧ (∀ p, PMEvent.symbolLoad p ∉ (executorWithoutCheck (initState m)).2.2)
      ∧ (∀ p, PMEvent.correctness p ∉ (executorWithoutCheck (initState m)).2.2)
      ∧ some (executorWithoutCheck (initState m)).1
          = (executorWithoutCheck (initState m)).2.1.executorWithoutCheckCache) := by
  constructor <;>
    simp [authManagerWithoutCheck, executorWithoutCheck, initState,
      discoverAuthManagersPass, discoverExecutorsPass]

/-- C3: for every manifest mapping and every modelled accessor, `_cleanup`
followed by the accessor returns a value equal to the value the accessor
returns on a freshly-constructed registry over the same manifest mapping:
the caches are cleared but re-discovery reproduces the same content. -/
theorem claim_C3 (a : Accessor) (s : PMState) :
    (runAccessor a (cleanup s)).1 = (runAccessor a (initState s.manifest)).1 := by
  cases a <;> simp [runAccessor, cleanup, initState]

/-- C4: constructing the registry twice yields the same singleton handle; a
`resource_version` write through the first handle is read back through the
second handle; and after `_cleanup` through a handle, construction still
returns the very same handle (singleton identity preserved). -/
theorem claim_C4 (m : Manifest) (v : String) :
    (constructPM m ((constructPM m emptyWorld).2)).1 = (constructPM m emptyWorld).1
    ∧ readRV
        (writeRV (constructPM m ((constructPM m emptyWorld).2)).2
          (constructPM m emptyWorld).1 v)
        (constructPM m ((constructPM m emptyWorld).2)).1 = some v
    ∧ (constructPM m
        (cleanupAt (constructPM m ((constructPM m emptyWorld).2)).2
          (constructPM m emptyWorld).1)).1
      = (constructPM m emptyWorld).1 := by
  refine ⟨rfl, ?_, rfl⟩
  simp [constructPM, emptyWorld, writeRV, readRV, cleanupAt, listModify, initState]

end Spec2Proof
